import Mathlib

/-!
Verification of the room-based signaling relay of `src/server.py`
(FastAPI video-chat server).

The relay's shared state is two module-level Python `defaultdict(dict)`s:
  rooms      : room_id -> {client_id -> WebSocket}
  room_users : room_id -> {client_id -> username}
We embed Python dicts as insertion-ordered association lists and model the
`defaultdict` semantics faithfully: *any* index access `d[k]`, including one
made only to call `.pop` or `.items()` on the result, materializes an empty
entry for a missing key.  WebSocket objects are identified by an opaque
numeric token; whether a `send_text` to a given client raises is modelled by
a list `fails` of failing client ids supplied to each step.
-/

namespace VideoChat

/-- A Python JSON value as produced by `json.loads`. -/
inductive JVal where
  | str : String → JVal
  | num : Int → JVal
  | bool : Bool → JVal
  | null : JVal
  | arr : List JVal → JVal
  | obj : List (String × JVal) → JVal

/-- Insertion-ordered dictionary, as a Python `dict`: a list of key/value
pairs in insertion order. -/
abbrev Dict (V : Type) := List (String × V)

/-- Python assignment `d[k] = v`: replace the value of the (unique) entry
with key `k` in place, else append a fresh entry. -/
def dictInsert {V : Type} (d : Dict V) (k : String) (v : V) : Dict V :=
  match d with
  | [] => [(k, v)]
  | p :: t => if p.1 = k then (k, v) :: t else p :: dictInsert t k v

/-- Python `d.get(k)` / `d[k]` lookup (first entry with the key). -/
def dictGet {V : Type} (d : Dict V) (k : String) : Option V :=
  (d.find? (fun p => p.1 = k)).map Prod.snd

/-- Python `d.pop(k, None)`'s effect on the dict: drop the entry with
key `k`. -/
def dictErase {V : Type} (d : Dict V) (k : String) : Dict V :=
  d.filter (fun p => p.1 ≠ k)

/-- Python `k in d` for a dict. -/
def containsKey {V : Type} (d : Dict V) (k : String) : Bool :=
  (dictGet d k).isSome

/-- Reading `dd[k]` from a `defaultdict(dict)`: the stored dict, or `{}`. -/
def ddGet {V : Type} (dd : Dict (Dict V)) (k : String) : Dict V :=
  (dictGet dd k).getD []

/-- The effect on a `defaultdict(dict)` of merely *accessing* `dd[k]`:
a missing key is materialized with an empty dict. -/
def ddTouch {V : Type} (dd : Dict (Dict V)) (k : String) : Dict (Dict V) :=
  dictInsert dd k (ddGet dd k)

/-- The process-wide registry: `rooms` (server.py line 58) and
`room_users` (line 59). A WebSocket is an opaque numeric token. -/
structure Registry where
  rooms : Dict (Dict Nat)
  roomUsers : Dict (Dict String)
  deriving DecidableEq

/-- The registry at process start: both defaultdicts empty. -/
def Registry.init : Registry := ⟨[], []⟩

/-- Lines 251-256: admission of a connection into a room.  `client_id` is the
8-hex-char draw `uuid.uuid4().hex[:8]` — the randomness is externalized as
the parameter `cid`; the code performs **no** collision check before
`rooms[room_id][client_id] = websocket`.  `room_users` is only written when
a username was supplied. -/
def admitClient (reg : Registry) (roomId cid : String) (conn : Nat)
    (username : Option String) : Registry :=
  { rooms := dictInsert reg.rooms roomId
      (dictInsert (ddGet reg.rooms roomId) cid conn),
    roomUsers :=
      match username with
      | some u => dictInsert reg.roomUsers roomId
          (dictInsert (ddGet reg.roomUsers roomId) cid u)
      | none => reg.roomUsers }

/-- Line 311/337: `room_users[room_id].get(client_id, f"User {client_id}")`
(value only; the defaultdict materialization it causes is applied separately
where the code performs it). -/
def userName (reg : Registry) (roomId cid : String) : String :=
  (dictGet (ddGet reg.roomUsers roomId) cid).getD ("User " ++ cid)

/-- Lines 329-331 / 359-361: prune one dead recipient after a failed send:
`rooms[room_id].pop(cid, None); room_users[room_id].pop(cid, None)`.
Both index accesses materialize the room key if it is absent, and **no**
empty-room deletion is performed here. -/
def pruneOne (reg : Registry) (roomId cid : String) : Registry :=
  { rooms := dictInsert reg.rooms roomId
      (dictErase (ddGet reg.rooms roomId) cid),
    roomUsers := dictInsert reg.roomUsers roomId
      (dictErase (ddGet reg.roomUsers roomId) cid) }

/-- Lines 371-380, the `finally` block: pop the departing client from both
maps, then delete the room from both maps if `rooms[room_id]` is empty. -/
def disconnectCleanup (reg : Registry) (roomId cid : String) : Registry :=
  let reg1 := pruneOne reg roomId cid
  if (ddGet reg1.rooms roomId).isEmpty then
    { rooms := dictErase reg1.rooms roomId,
      roomUsers := dictErase reg1.roomUsers roomId }
  else reg1

/-- Lines 264-275: the `existing_clients` list built for a newcomer —
every current member of the room other than `selfId`, with its display
name (`room_users[room_id].get(cid, f"User {cid}")`). -/
def snapshot (reg : Registry) (roomId selfId : String) :
    List (String × String) :=
  ((ddGet reg.rooms roomId).filter (fun p => p.1 ≠ selfId)).map
    (fun p => (p.1, userName reg roomId p.1))

/-- Python `str.strip()` whitespace set (ASCII fragment). -/
def isPySpace (c : Char) : Bool :=
  c = ' ' || c = '\t' || c = '\n' || c = '\r' || c = '\x0b' || c = '\x0c'

/-- Python `s.strip()`. -/
def pyStrip (s : String) : String :=
  String.mk (((s.toList.dropWhile isPySpace).reverse.dropWhile
    isPySpace).reverse)

/-- Python truthiness of a JSON value (`not target_client`, line 350). -/
def JVal.truthy : JVal → Bool
  | .str s => s ≠ ""
  | .num n => n ≠ 0
  | .bool b => b
  | .null => false
  | .arr l => !l.isEmpty
  | .obj l => !l.isEmpty

/-- Python `cid == target_client` where `cid` is a `str` and the target is
`msg_obj.get("to")`: equality holds only against an equal string. -/
def eqTarget (cid : String) : Option JVal → Bool
  | some (.str s) => cid = s
  | _ => false

/-- Line 350's recipient test for a WebRTC signal:
`cid != client_id and (not target_client or cid == target_client)`. -/
def signalRecipient (sender : String) (target : Option JVal)
    (cid : String) : Bool :=
  cid ≠ sender &&
    (!(target.map JVal.truthy).getD false || eqTarget cid target)

/-- Lines 341-345: the outbound signal envelope
`json.dumps({"from": client_id, "from_username": sender_username,
**msg_obj})`.  A Python dict literal evaluates left to right, so keys of
`msg_obj` **override** the two provenance fields on collision. -/
def envelope (sender uname : String) (msg : Dict JVal) : Dict JVal :=
  msg.foldl (fun d p => dictInsert d p.1 p.2)
    [("from", JVal.str sender), ("from_username", JVal.str uname)]

/-- Lines 308-331: the chat branch of the receive loop.  Returns the new
registry and the list of (recipient, delivered message).  `fails` is the
set of client ids whose `send_text` raises. -/
def chatStep (reg : Registry) (roomId sender : String) (chatRaw : String)
    (fails : List String) : Registry × List (String × Dict JVal) :=
  let chat := pyStrip chatRaw
  if chat = "" then (reg, [])
  else
    let uname := userName reg roomId sender
    let reg := { reg with roomUsers := ddTouch reg.roomUsers roomId }
    let members := ddGet reg.rooms roomId
    let reg := { reg with rooms := ddTouch reg.rooms roomId }
    let msg : Dict JVal :=
      [("from", JVal.str sender), ("from_username", JVal.str uname),
       ("chat", JVal.str chat)]
    let recips := members.filter (fun p => p.1 ≠ sender)
    let delivered := recips.filter (fun p => !fails.contains p.1)
    let disconnected :=
      (recips.filter (fun p => fails.contains p.1)).map Prod.fst
    let reg := disconnected.foldl (fun r c => pruneOne r roomId c) reg
    (reg, delivered.map (fun p => (p.1, msg)))

/-- Lines 334-361: the WebRTC-signal branch of the receive loop. -/
def signalStep (reg : Registry) (roomId sender : String) (msg : Dict JVal)
    (fails : List String) : Registry × List (String × Dict JVal) :=
  let target := dictGet msg "to"
  let uname := userName reg roomId sender
  let reg := { reg with roomUsers := ddTouch reg.roomUsers roomId }
  let out := envelope sender uname msg
  let members := ddGet reg.rooms roomId
  let reg := { reg with rooms := ddTouch reg.rooms roomId }
  let recips := members.filter (fun p => signalRecipient sender target p.1)
  let delivered := recips.filter (fun p => !fails.contains p.1)
  let disconnected :=
    (recips.filter (fun p => fails.contains p.1)).map Prod.fst
  let reg := disconnected.foldl (fun r c => pruneOne r roomId c) reg
  (reg, delivered.map (fun p => (p.1, out)))

/-- One inbound frame, after `websocket.receive_text`: either a byte
sequence `json.loads` rejects, or a parsed JSON value. -/
inductive Inbound where
  | notJson : Inbound
  | val : JVal → Inbound

/-- Outcome of processing one inbound frame. -/
inductive StepResult where
  /-- The receive loop continues (session still relaying). -/
  | ok : Registry → List (String × Dict JVal) → StepResult
  /-- An uncaught exception escaped the inner `try`: the session is torn
  down by the `finally` block (lines 371-380). -/
  | closed : Registry → List (String × Dict JVal) → StepResult

/-- Lines 302-365: one iteration of the receive loop.
  * invalid JSON: `json.JSONDecodeError` is caught (line 363), nothing
    happens;
  * a parsed value that is not a dict crashes the session: `"chat" in 42`
    raises `TypeError`, and for a `str` or `list` the subsequent
    `msg_obj.get` raises `AttributeError` — all caught only at line 369,
    after which the `finally` cleanup runs;
  * a dict with a non-string `"chat"` value crashes at `.strip()`
    (`AttributeError`);
  * otherwise the chat or signal branch runs. -/
def sessionStep (reg : Registry) (roomId sender : String) (inb : Inbound)
    (fails : List String) : StepResult :=
  match inb with
  | .notJson => .ok reg []
  | .val v =>
    match v with
    | .obj m =>
      match dictGet m "chat" with
      | some (.str s) =>
        let (r, ds) := chatStep reg roomId sender s fails
        .ok r ds
      | some _ => .closed (disconnectCleanup reg roomId sender) []
      | none =>
        let (r, ds) := signalStep reg roomId sender m fails
        .ok r ds
    | _ => .closed (disconnectCleanup reg roomId sender) []

/-- The registry mutations named by the spec's invariant claims: admission,
broadcast-failure removal, and disconnect handling. -/
inductive RegOp where
  | join (roomId cid : String) (conn : Nat) (username : Option String)
  | prune (roomId cid : String)
  | disconnect (roomId cid : String)

/-- Apply one registry operation. -/
def applyOp (reg : Registry) : RegOp → Registry
  | .join r c conn u => admitClient reg r c conn u
  | .prune r c => pruneOne reg r c
  | .disconnect r c => disconnectCleanup reg r c

/-- Apply a sequence of registry operations to the initial registry. -/
def applyOps (ops : List RegOp) : Registry :=
  ops.foldl applyOp Registry.init

/-- Whether the operation is an admission or a disconnect cleanup (i.e.
not a broadcast-failure prune). -/
def RegOp.notPrune : RegOp → Bool
  | .prune _ _ => false
  | _ => true

/-- The spec's registry invariant, as a decidable check: every room entry
present in `rooms` has a non-empty membership dict. -/
def roomsInvariant (reg : Registry) : Bool :=
  reg.rooms.all (fun p => !p.2.isEmpty)

/-- The list of (recipient, message) deliveries reported by a step. -/
def deliveries : StepResult → List (String × Dict JVal)
  | .ok _ ds => ds
  | .closed _ ds => ds

/-! ### Dictionary lemmas -/

theorem dictGet_cons {V : Type} (p : String × V) (t : Dict V) (k : String) :
    dictGet (p :: t) k = if p.1 = k then some p.2 else dictGet t k := by
  by_cases h : p.1 = k <;> simp [dictGet, List.find?, h]

theorem dictGet_insert {V : Type} (d : Dict V) (k k' : String) (v : V) :
    dictGet (dictInsert d k v) k' = if k' = k then some v else dictGet d k' := by
  induction d with
  | nil =>
    by_cases h : k' = k
    · simp [dictInsert, dictGet_cons, dictGet, h]
    · have hk : ¬ k = k' := fun he => h he.symm
      simp [dictInsert, dictGet_cons, dictGet, h, hk]
  | cons p t ih =>
    by_cases hp : p.1 = k
    · rw [show dictInsert (p :: t) k v = (k, v) :: t by simp [dictInsert, hp]]
      by_cases h : k' = k
      · simp [dictGet_cons, h]
      · have hk : ¬ k = k' := fun he => h he.symm
        have hpk : ¬ p.1 = k' := fun he => h ((he ▸ hp) ▸ rfl)
        simp [dictGet_cons, h, hk, hpk]
    · rw [show dictInsert (p :: t) k v = p :: dictInsert t k v by
        simp [dictInsert, hp]]
      by_cases hpk : p.1 = k'
      · have hk : ¬ k' = k := fun he => hp (he ▸ hpk)
        simp [dictGet_cons, hpk, hk]
      · simp [dictGet_cons, hpk, ih]

theorem dictGet_erase {V : Type} (d : Dict V) (k k' : String) :
    dictGet (dictErase d k) k' = if k' = k then none else dictGet d k' := by
  induction d with
  | nil => by_cases h : k' = k <;> simp [dictErase, dictGet, h]
  | cons p t ih =>
    by_cases hp : p.1 = k
    · rw [show dictErase (p :: t) k = dictErase t k by
        simp [dictErase, List.filter_cons, hp]]
      rw [ih]
      by_cases h : k' = k
      · simp [h]
      · have hpk : ¬ p.1 = k' := fun he => h ((he ▸ hp) ▸ rfl)
        simp [h, dictGet_cons, hpk]
    · rw [show dictErase (p :: t) k = p :: dictErase t k by
        simp [dictErase, List.filter_cons, hp]]
      by_cases hpk : p.1 = k'
      · have hk : ¬ k' = k := fun he => hp (he ▸ hpk)
        simp [dictGet_cons, hpk, hk]
      · simp [dictGet_cons, hpk, ih]

theorem dictGet_eq_none_iff {V : Type} (d : Dict V) (k : String) :
    dictGet d k = none ↔ k ∉ d.map Prod.fst := by
  simp only [dictGet, Option.map_eq_none', List.find?_eq_none, List.mem_map,
    decide_eq_true_eq]
  constructor
  · rintro h ⟨p, hp, hpk⟩
    exact h p hp hpk
  · intro h p hp hpk
    exact h ⟨p, hp, hpk⟩

theorem containsKey_eq_true_iff {V : Type} (d : Dict V) (k : String) :
    containsKey d k = true ↔ ∃ p ∈ d, p.1 = k := by
  simp only [containsKey, dictGet, Option.isSome_map', List.find?_isSome,
    decide_eq_true_eq]

theorem containsKey_eq_true_iff_mem_keys {V : Type} (d : Dict V) (k : String) :
    containsKey d k = true ↔ k ∈ d.map Prod.fst := by
  rw [containsKey_eq_true_iff]
  simp [List.mem_map]

theorem dictGet_eq_none_of_not_containsKey {V : Type} (d : Dict V) (k : String)
    (h : containsKey d k = false) : dictGet d k = none := by
  cases hg : dictGet d k with
  | none => rfl
  | some v => simp [containsKey, hg] at h

theorem containsKey_eq_false_iff {V : Type} (d : Dict V) (k : String) :
    containsKey d k = false ↔ dictGet d k = none := by
  constructor
  · exact dictGet_eq_none_of_not_containsKey d k
  · intro h
    simp [containsKey, h]

theorem dictInsert_of_get_none {V : Type} (d : Dict V) (k : String) (v : V)
    (h : dictGet d k = none) : dictInsert d k v = d ++ [(k, v)] := by
  induction d with
  | nil => simp [dictInsert]
  | cons p t ih =>
    rw [dictGet_cons] at h
    by_cases hp : p.1 = k
    · simp [hp] at h
    · simp [hp] at h
      simp [dictInsert, hp, ih h]

theorem dictInsert_of_get_some {V : Type} (d : Dict V) (k : String) (v : V)
    (h : dictGet d k = some v) : dictInsert d k v = d := by
  induction d with
  | nil => simp [dictGet] at h
  | cons p t ih =>
    rw [dictGet_cons] at h
    by_cases hp : p.1 = k
    · simp [hp] at h
      have hp2 : p = (k, v) := by
        cases p
        simp_all
      simp [dictInsert, hp, hp2]
    · simp [hp] at h
      simp [dictInsert, hp, ih h]

theorem dictErase_of_get_none {V : Type} (d : Dict V) (k : String)
    (h : dictGet d k = none) : dictErase d k = d := by
  induction d with
  | nil => rfl
  | cons p t ih =>
    rw [dictGet_cons] at h
    by_cases hp : p.1 = k
    · simp [hp] at h
    · rw [show dictErase (p :: t) k = p :: dictErase t k by
        simp [dictErase, List.filter_cons, hp]]
      simp [hp] at h
      rw [ih h]

theorem dictErase_insert {V : Type} (d : Dict V) (k : String) (v : V) :
    dictErase (dictInsert d k v) k = dictErase d k := by
  induction d with
  | nil => simp [dictInsert, dictErase, List.filter_cons]
  | cons p t ih =>
    by_cases hp : p.1 = k
    · rw [show dictInsert (p :: t) k v = (k, v) :: t by simp [dictInsert, hp]]
      rw [show dictErase ((k, v) :: t) k = dictErase t k by
        simp [dictErase, List.filter_cons]]
      rw [show dictErase (p :: t) k = dictErase t k by
        simp [dictErase, List.filter_cons, hp]]
    · rw [show dictInsert (p :: t) k v = p :: dictInsert t k v by
        simp [dictInsert, hp]]
      rw [show dictErase (p :: dictInsert t k v) k
            = p :: dictErase (dictInsert t k v) k by
        simp [dictErase, List.filter_cons, hp]]
      rw [show dictErase (p :: t) k = p :: dictErase t k by
        simp [dictErase, List.filter_cons, hp]]
      rw [ih]

theorem length_dictInsert_of_not_containsKey {V : Type} (d : Dict V)
    (k : String) (v : V) (h : containsKey d k = false) :
    (dictInsert d k v).length = d.length + 1 := by
  rw [dictInsert_of_get_none d k v (dictGet_eq_none_of_not_containsKey d k h)]
  simp

theorem length_dictInsert_of_containsKey {V : Type} (d : Dict V)
    (k : String) (v : V) (h : containsKey d k = true) :
    (dictInsert d k v).length = d.length := by
  induction d with
  | nil => simp [containsKey, dictGet] at h
  | cons p t ih =>
    by_cases hp : p.1 = k
    · rw [show dictInsert (p :: t) k v = (k, v) :: t by simp [dictInsert, hp]]
      simp
    · rw [show dictInsert (p :: t) k v = p :: dictInsert t k v by
        simp [dictInsert, hp]]
      have ht : containsKey t k = true := by
        simpa [containsKey, dictGet_cons, hp] using h
      simp [List.length_cons, ih ht]

theorem length_dictErase_of_containsKey {V : Type} (d : Dict V) (k : String)
    (hnd : (d.map Prod.fst).Nodup) (h : containsKey d k = true) :
    (dictErase d k).length + 1 = d.length := by
  induction d with
  | nil => simp [containsKey, dictGet] at h
  | cons p t ih =>
    simp only [List.map_cons, List.nodup_cons] at hnd
    by_cases hp : p.1 = k
    · rw [show dictErase (p :: t) k = dictErase t k by
        simp [dictErase, List.filter_cons, hp]]
      have ht : dictGet t k = none := by
        rw [dictGet_eq_none_iff]
        exact hp ▸ hnd.1
      rw [dictErase_of_get_none t k ht]
      simp
    · rw [show dictErase (p :: t) k = p :: dictErase t k by
        simp [dictErase, List.filter_cons, hp]]
      have ht : containsKey t k = true := by
        simpa [containsKey, dictGet_cons, hp] using h
      simp only [List.length_cons]
      rw [← ih hnd.2 ht]

theorem containsKey_erase {V : Type} (d : Dict V) (k k' : String) :
    containsKey (dictErase d k) k'
      = if k' = k then false else containsKey d k' := by
  by_cases h : k' = k <;> simp [containsKey, dictGet_erase, h]

theorem dictGet_foldl_insert_of_none {V : Type} (m : Dict V) (d0 : Dict V)
    (k : String) (h : dictGet m k = none) :
    dictGet (m.foldl (fun d p => dictInsert d p.1 p.2) d0) k = dictGet d0 k := by
  induction m generalizing d0 with
  | nil => rfl
  | cons p t ih =>
    rw [dictGet_cons] at h
    by_cases hp : p.1 = k
    · simp [hp] at h
    · simp [hp] at h
      simp only [List.foldl_cons]
      rw [ih _ h, dictGet_insert, if_neg (fun he : k = p.1 => hp he.symm)]

theorem dictGet_foldl_insert_of_some {V : Type} (m : Dict V) (d0 : Dict V)
    (k : String) (v : V) (hnd : (m.map Prod.fst).Nodup)
    (h : dictGet m k = some v) :
    dictGet (m.foldl (fun d p => dictInsert d p.1 p.2) d0) k = some v := by
  induction m generalizing d0 with
  | nil => simp [dictGet] at h
  | cons p t ih =>
    simp only [List.map_cons, List.nodup_cons] at hnd
    rw [dictGet_cons] at h
    simp only [List.foldl_cons]
    by_cases hp : p.1 = k
    · simp [hp] at h
      have ht : dictGet t k = none := by
        rw [dictGet_eq_none_iff]
        exact hp ▸ hnd.1
      rw [dictGet_foldl_insert_of_none t _ k ht, dictGet_insert]
      simp [hp, h]
    · simp [hp] at h
      exact ih _ hnd.2 h

theorem rooms_pruneOne (reg : Registry) (R c : String) :
    ddGet (pruneOne reg R c).rooms R = dictErase (ddGet reg.rooms R) c := by
  simp [pruneOne, ddGet, dictGet_insert]

theorem roomUsers_pruneOne (reg : Registry) (R c : String) :
    ddGet (pruneOne reg R c).roomUsers R
      = dictErase (ddGet reg.roomUsers R) c := by
  simp [pruneOne, ddGet, dictGet_insert]

theorem rooms_foldl_pruneOne (D : List String) (reg : Registry) (R : String) :
    ddGet ((D.foldl (fun r c => pruneOne r R c) reg).rooms) R
      = D.foldl (fun mm c => dictErase mm c) (ddGet reg.rooms R) := by
  induction D generalizing reg with
  | nil => rfl
  | cons c D ih =>
    simp only [List.foldl_cons]
    rw [ih, rooms_pruneOne]

theorem roomUsers_foldl_pruneOne (D : List String) (reg : Registry)
    (R : String) :
    ddGet ((D.foldl (fun r c => pruneOne r R c) reg).roomUsers) R
      = D.foldl (fun mm c => dictErase mm c) (ddGet reg.roomUsers R) := by
  induction D generalizing reg with
  | nil => rfl
  | cons c D ih =>
    simp only [List.foldl_cons]
    rw [ih, roomUsers_pruneOne]

theorem containsKey_foldl_erase {V : Type} (D : List String) (mm : Dict V)
    (c : String) :
    containsKey (D.foldl (fun m x => dictErase m x) mm) c
      = (containsKey mm c && !(D.contains c)) := by
  induction D generalizing mm with
  | nil => simp
  | cons x D ih =>
    simp only [List.foldl_cons]
    rw [ih]
    by_cases hc : c = x
    · subst hc
      simp [containsKey_erase]
    · simp [containsKey_erase, hc, List.contains_cons]

/-! ### Claim theorems -/

/-- C2 (counterexample): an inbound frame that is valid JSON but not an
object — here the number `42` — is a malformed payload the claim covers,
yet it is *not* discarded silently: `"chat" in 42` raises `TypeError`,
which the `except json.JSONDecodeError` handler (line 363) does not
catch, so the exception escapes to line 369 and the `finally` block
tears the session down, removing the sender from the room.  Starting
from room "r" = {aaaa, bbbb}, sender aaaa's session closes and the
membership shrinks to {bbbb}. -/
theorem claim_C2_counterexample :
    sessionStep ⟨[("r", [("aaaa", 0), ("bbbb", 1)])],
        [("r", [("aaaa", "Alice"), ("bbbb", "Bob")])]⟩ "r" "aaaa"
      (Inbound.val (JVal.num 42)) []
    = .closed ⟨[("r", [("bbbb", 1)])], [("r", [("bbbb", "Bob")])]⟩ [] := by
  rfl

/-- C2 (amended): for every inbound byte sequence that `json.loads`
rejects (`json.JSONDecodeError`), the session discards it silently: the
registry is unchanged, nothing is delivered, and the receive loop
continues.  (An inbound message that parses to a JSON value other than
an object instead raises an uncaught exception and terminates the
session.) -/
theorem claim_C2 (reg : Registry) (roomId sender : String)
    (fails : List String) :
    sessionStep reg roomId sender Inbound.notJson fails = .ok reg [] := rfl

/-- C1 (counterexample): the relayed envelope is the Python dict literal
`{"from": client_id, "from_username": sender_username, **msg_obj}`
(lines 341-345), in which the spliced `msg_obj` comes *last*, so an
inbound `"from"` key overrides the sender's identifier.  Sender "aaaa"
(Alice) sends `{"type": "offer", "from": "evil"}`; the message delivered
to "bbbb" carries `"from": "evil"`, not `"from": "aaaa"`. -/
theorem claim_C1_counterexample :
    sessionStep ⟨[("r", [("aaaa", 0), ("bbbb", 1)])],
        [("r", [("aaaa", "Alice"), ("bbbb", "Bob")])]⟩ "r" "aaaa"
      (Inbound.val (JVal.obj [("type", JVal.str "offer"),
        ("from", JVal.str "evil")])) []
    = .ok ⟨[("r", [("aaaa", 0), ("bbbb", 1)])],
        [("r", [("aaaa", "Alice"), ("bbbb", "Bob")])]⟩
        [("bbbb", [("from", JVal.str "evil"),
          ("from_username", JVal.str "Alice"),
          ("type", JVal.str "offer")])] ∧
    ("evil" : String) ≠ "aaaa" := by
  exact ⟨rfl, by decide⟩

/-- C1 (amended): the relayed signal envelope starts from the sender's
client id and display name and then splices in the inbound fields, the
inbound fields taking precedence on key collision.  Hence the delivered
"from" and "from_username" fields equal the actual sender's identifier
and display name whenever the inbound payload does not itself contain
those keys, and every inbound field is forwarded verbatim. -/
theorem claim_C1 (sender uname : String) (m : Dict JVal)
    (hnd : (m.map Prod.fst).Nodup) :
    (dictGet m "from" = none →
      dictGet (envelope sender uname m) "from" = some (JVal.str sender)) ∧
    (dictGet m "from_username" = none →
      dictGet (envelope sender uname m) "from_username"
        = some (JVal.str uname)) ∧
    (∀ k v, dictGet m k = some v →
      dictGet (envelope sender uname m) k = some v) := by
  refine ⟨?_, ?_, ?_⟩
  · intro h
    rw [envelope, dictGet_foldl_insert_of_none m _ _ h]
    rfl
  · intro h
    rw [envelope, dictGet_foldl_insert_of_none m _ _ h]
    rfl
  · intro k v h
    rw [envelope]
    exact dictGet_foldl_insert_of_some m _ k v hnd h

/-- C1 witness: a payload without a "from" key is relayed with the
sender's id in "from". -/
theorem claim_C1_witness :
    ([("type", JVal.str "offer")].map Prod.fst).Nodup ∧
    dictGet (envelope "aaaa" "Alice" [("type", JVal.str "offer")]) "from"
      = some (JVal.str "aaaa") :=
  ⟨by decide, (claim_C1 "aaaa" "Alice" [("type", JVal.str "offer")]
    (by decide)).1 rfl⟩

/-- C3 (counterexample): `admitClient` performs no collision check before
`rooms[room_id][client_id] = websocket` (line 252).  Admitting into
room "r" (current membership {"aaaa"}) with the colliding draw "aaaa"
overwrites the existing member's WebSocket (0 becomes 1) and leaves the
membership size at 1: the membership set does not grow and an existing
member's entry *is* overwritten, contradicting the claimed
regenerate-on-collision policy. -/
theorem claim_C3_counterexample :
    admitClient ⟨[("r", [("aaaa", 0)])], []⟩ "r" "aaaa" 1 none
      = ⟨[("r", [("aaaa", 1)])], []⟩ ∧
    (ddGet (admitClient ⟨[("r", [("aaaa", 0)])], []⟩ "r" "aaaa" 1 none).rooms
        "r").length
      = (ddGet (⟨[("r", [("aaaa", 0)])], []⟩ : Registry).rooms "r").length :=
  ⟨rfl, rfl⟩

/-- C3 (amended): `admitClient` inserts the freshly drawn identifier with no
collision check.  When the draw does not collide with a current member,
the membership set grows by exactly one and every existing entry is
preserved; when it collides, the existing member's entry is overwritten
and the membership size is unchanged. -/
theorem claim_C3 (reg : Registry) (roomId cid : String) (conn : Nat)
    (username : Option String) :
    (containsKey (ddGet reg.rooms roomId) cid = false →
      (ddGet (admitClient reg roomId cid conn username).rooms roomId).length
          = (ddGet reg.rooms roomId).length + 1 ∧
      ∀ p ∈ ddGet reg.rooms roomId,
        p ∈ ddGet (admitClient reg roomId cid conn username).rooms roomId) ∧
    (containsKey (ddGet reg.rooms roomId) cid = true →
      (ddGet (admitClient reg roomId cid conn username).rooms roomId).length
        = (ddGet reg.rooms roomId).length) := by
  have hroom : ddGet (admitClient reg roomId cid conn username).rooms roomId
      = dictInsert (ddGet reg.rooms roomId) cid conn := by
    simp [admitClient, ddGet, dictGet_insert]
  refine ⟨fun h => ⟨?_, ?_⟩, fun h => ?_⟩
  · rw [hroom]
    exact length_dictInsert_of_not_containsKey _ _ _ h
  · intro p hp
    rw [hroom, dictInsert_of_get_none _ _ _
      (dictGet_eq_none_of_not_containsKey _ _ h)]
    exact List.mem_append_left _ hp
  · rw [hroom]
    exact length_dictInsert_of_containsKey _ _ _ h

/-- C3 witness: a non-colliding admission grows room "r" from one to two
members. -/
theorem claim_C3_witness :
    containsKey (ddGet (⟨[("r", [("aaaa", 0)])], []⟩ : Registry).rooms "r")
        "bbbb" = false ∧
    (ddGet (admitClient ⟨[("r", [("aaaa", 0)])], []⟩ "r" "bbbb" 1 none).rooms
        "r").length
      = (ddGet (⟨[("r", [("aaaa", 0)])], []⟩ : Registry).rooms "r").length
          + 1 :=
  ⟨rfl, ((claim_C3 ⟨[("r", [("aaaa", 0)])], []⟩ "r" "bbbb" 1 none).1 rfl).1⟩

/-- C7 (counterexample): the broadcast-cleanup removal
`rooms[room_id].pop(cid, None); room_users[room_id].pop(cid, None)`
(lines 329-331) does *not* leave the registry unchanged for every room
key: because `rooms` and `room_users` are `defaultdict(dict)`, indexing
an absent room key materializes an empty entry for it.  Removing client
"aaaa" from the absent room "r" turns the empty registry into one
holding an empty room "r". -/
theorem claim_C7_counterexample :
    pruneOne ⟨[], []⟩ "r" "aaaa" = ⟨[("r", [])], [("r", [])]⟩ ∧
    (⟨[("r", [])], [("r", [])]⟩ : Registry) ≠ ⟨[], []⟩ :=
  ⟨rfl, by decide⟩

/-- C7 (amended): removal raises no error and is idempotent on members:
removing an absent member from a room key that is present in both maps
leaves the registry exactly unchanged, and the disconnect-path removal
applied to an absent room key is a net no-op (the empty entry it
materializes is deleted again in the same step).  Only the
broadcast-cleanup removal applied to an *absent* room key mutates the
registry, by leaving behind the materialized empty entry. -/
theorem claim_C7 (reg : Registry) (roomId cid : String) :
    (∀ mR uR, dictGet reg.rooms roomId = some mR →
      containsKey mR cid = false →
      dictGet reg.roomUsers roomId = some uR →
      containsKey uR cid = false →
      pruneOne reg roomId cid = reg) ∧
    (dictGet reg.rooms roomId = none →
      dictGet reg.roomUsers roomId = none →
      disconnectCleanup reg roomId cid = reg) := by
  constructor
  · intro mR uR h1 h2 h3 h4
    have g1 : ddGet reg.rooms roomId = mR := by simp [ddGet, h1]
    have g2 : ddGet reg.roomUsers roomId = uR := by simp [ddGet, h3]
    have e1 : dictErase mR cid = mR :=
      dictErase_of_get_none _ _ (dictGet_eq_none_of_not_containsKey _ _ h2)
    have e2 : dictErase uR cid = uR :=
      dictErase_of_get_none _ _ (dictGet_eq_none_of_not_containsKey _ _ h4)
    unfold pruneOne
    rw [g1, g2, e1, e2, dictInsert_of_get_some _ _ _ h1,
      dictInsert_of_get_some _ _ _ h3]
  · intro h1 h2
    have g1 : ddGet reg.rooms roomId = [] := by simp [ddGet, h1]
    have g2 : ddGet reg.roomUsers roomId = [] := by simp [ddGet, h2]
    have hr : pruneOne reg roomId cid
        = ⟨dictInsert reg.rooms roomId [],
           dictInsert reg.roomUsers roomId []⟩ := by
      unfold pruneOne
      rw [g1, g2]
      rfl
    unfold disconnectCleanup
    rw [hr]
    have hget : ddGet (dictInsert reg.rooms roomId []) roomId = [] := by
      simp [ddGet, dictGet_insert]
    simp only [hget, List.isEmpty_nil, if_true]
    rw [dictErase_insert, dictErase_insert, dictErase_of_get_none _ _ h1,
      dictErase_of_get_none _ _ h2]

/-- C7 witness: removing an absent member "zzzz" from the existing room
"r" leaves the registry unchanged. -/
theorem claim_C7_witness :
    dictGet (⟨[("r", [("aaaa", 0)])], [("r", [("aaaa", "Alice")])]⟩ :
        Registry).rooms "r" = some [("aaaa", 0)] ∧
    pruneOne ⟨[("r", [("aaaa", 0)])], [("r", [("aaaa", "Alice")])]⟩ "r"
        "zzzz"
      = ⟨[("r", [("aaaa", 0)])], [("r", [("aaaa", "Alice")])]⟩ :=
  ⟨rfl, (claim_C7 _ "r" "zzzz").1 [("aaaa", 0)] [("aaaa", "Alice")]
    rfl rfl rfl rfl⟩

theorem rooms_admitClient (reg : Registry) (roomId cid : String) (conn : Nat)
    (username : Option String) :
    ddGet (admitClient reg roomId cid conn username).rooms roomId
      = dictInsert (ddGet reg.rooms roomId) cid conn := by
  simp [admitClient, ddGet, dictGet_insert]

theorem dictInsert_ne_nil {V : Type} (d : Dict V) (k : String) (v : V) :
    dictInsert d k v ≠ [] := by
  cases d with
  | nil => simp [dictInsert]
  | cons p t => by_cases hp : p.1 = k <;> simp [dictInsert, hp]

theorem mem_dictInsert {V : Type} {p : String × V} {d : Dict V} {k : String}
    {v : V} (h : p ∈ dictInsert d k v) : p = (k, v) ∨ p ∈ d := by
  induction d with
  | nil => simpa [dictInsert] using h
  | cons q t ih =>
    by_cases hq : q.1 = k
    · rw [show dictInsert (q :: t) k v = (k, v) :: t by
        simp [dictInsert, hq]] at h
      rcases List.mem_cons.mp h with h | h
      · exact Or.inl h
      · exact Or.inr (List.mem_cons_of_mem _ h)
    · rw [show dictInsert (q :: t) k v = q :: dictInsert t k v by
        simp [dictInsert, hq]] at h
      rcases List.mem_cons.mp h with h | h
      · exact Or.inr (h ▸ List.mem_cons_self _ _)
      · rcases ih h with h | h
        · exact Or.inl h
        · exact Or.inr (List.mem_cons_of_mem _ h)

theorem roomsInvariant_iff (reg : Registry) :
    roomsInvariant reg = true ↔ ∀ p ∈ reg.rooms, p.2 ≠ [] := by
  simp [roomsInvariant, List.all_eq_true, List.isEmpty_iff]

theorem roomsInvariant_join (reg : Registry) (roomId cid : String)
    (conn : Nat) (username : Option String)
    (hinv : roomsInvariant reg = true) :
    roomsInvariant (admitClient reg roomId cid conn username) = true := by
  rw [roomsInvariant_iff] at hinv ⊢
  intro p hp
  simp only [admitClient] at hp
  rcases mem_dictInsert hp with h | h
  · rw [h]
    exact dictInsert_ne_nil _ _ _
  · exact hinv p h

theorem roomsInvariant_disconnectCleanup (reg : Registry)
    (roomId cid : String) (hinv : roomsInvariant reg = true) :
    roomsInvariant (disconnectCleanup reg roomId cid) = true := by
  rw [roomsInvariant_iff] at hinv
  simp only [disconnectCleanup]
  by_cases hE : (ddGet (pruneOne reg roomId cid).rooms roomId).isEmpty
  · rw [if_pos hE, roomsInvariant_iff]
    intro p hp
    have hp2 := List.mem_filter.mp hp
    have hne : p.1 ≠ roomId := by simpa using hp2.2
    have hp3 : p ∈ (pruneOne reg roomId cid).rooms := hp2.1
    simp only [pruneOne] at hp3
    rcases mem_dictInsert hp3 with h | h
    · exact absurd (congrArg Prod.fst h) (by simpa using hne)
    · exact hinv p h
  · rw [if_neg hE, roomsInvariant_iff]
    intro p hp
    simp only [pruneOne] at hp
    rcases mem_dictInsert hp with h | h
    · rw [h]
      intro hc
      apply hE
      rw [rooms_pruneOne]
      simp only at hc
      rw [hc]
      rfl
    · exact hinv p h

theorem roomsInvariant_foldl (ops : List RegOp) (reg : Registry)
    (hinv : roomsInvariant reg = true)
    (hops : ops.all RegOp.notPrune = true) :
    roomsInvariant (ops.foldl applyOp reg) = true := by
  induction ops generalizing reg with
  | nil => exact hinv
  | cons op ops ih =>
    rw [List.all_cons, Bool.and_eq_true] at hops
    simp only [List.foldl_cons]
    refine ih _ ?_ hops.2
    cases op with
    | join r c conn u => exact roomsInvariant_join _ _ _ _ _ hinv
    | prune r c => simp [RegOp.notPrune] at hops
    | disconnect r c => exact roomsInvariant_disconnectCleanup _ _ _ hinv

/-- C4 (counterexample): the broadcast-failure removal (lines 329-331 /
359-361) never deletes an emptied room, so the exists-iff-non-empty
invariant fails on a reachable operation sequence.  Trace: sessions
aaaa and bbbb join room "r"; bbbb's send to aaaa fails, so bbbb prunes
aaaa; then aaaa — still in its receive loop — has its send to bbbb
fail and prunes bbbb.  Afterwards the registry still holds room "r"
with an *empty* membership set. -/
theorem claim_C4_counterexample :
    dictGet (applyOps [RegOp.join "r" "aaaa" 0 none,
      RegOp.join "r" "bbbb" 1 none, RegOp.prune "r" "aaaa",
      RegOp.prune "r" "bbbb"]).rooms "r" = some [] ∧
    roomsInvariant (applyOps [RegOp.join "r" "aaaa" 0 none,
      RegOp.join "r" "bbbb" 1 none, RegOp.prune "r" "aaaa",
      RegOp.prune "r" "bbbb"]) = false :=
  ⟨rfl, rfl⟩

/-- C4 (amended): restricted to admissions and disconnect handling (the
`finally` block, which deletes a room it empties in the same step), the
invariant does hold: after any such sequence from the initial registry,
every room entry present in the registry has a non-empty membership
set.  Broadcast-failure removals are excluded: they do not delete an
emptied room, so a prune performed by a session that was itself already
pruned can leave an empty room entry behind. -/
theorem claim_C4 (ops : List RegOp)
    (hops : ops.all RegOp.notPrune = true) :
    roomsInvariant (applyOps ops) = true :=
  roomsInvariant_foldl ops Registry.init rfl hops

/-- C4 witness: a join/join/leave/leave sequence keeps the invariant. -/
theorem claim_C4_witness :
    ([RegOp.join "r" "aaaa" 0 (some "Alice"),
      RegOp.join "r" "bbbb" 1 none, RegOp.disconnect "r" "aaaa",
      RegOp.disconnect "r" "bbbb"].all RegOp.notPrune) = true ∧
    roomsInvariant (applyOps [RegOp.join "r" "aaaa" 0 (some "Alice"),
      RegOp.join "r" "bbbb" 1 none, RegOp.disconnect "r" "aaaa",
      RegOp.disconnect "r" "bbbb"]) = true :=
  ⟨rfl, claim_C4 [RegOp.join "r" "aaaa" 0 (some "Alice"),
    RegOp.join "r" "bbbb" 1 none, RegOp.disconnect "r" "aaaa",
    RegOp.disconnect "r" "bbbb"] rfl⟩

theorem mem_snapshot_of_containsKey (reg : Registry)
    (roomId selfId k : String)
    (h : containsKey (ddGet reg.rooms roomId) k = true) (hne : k ≠ selfId) :
    k ∈ (snapshot reg roomId selfId).map Prod.fst := by
  rcases (containsKey_eq_true_iff _ _).mp h with ⟨p, hp, hpk⟩
  simp only [snapshot, List.map_map]
  refine List.mem_map.mpr ⟨p, List.mem_filter.mpr ⟨hp, ?_⟩, hpk⟩
  simpa [hpk] using hne

/-- C9: two admissions into the same (possibly fresh) room key — each a
single atomic mutation of the registry, with no suspension point inside
(line 252 contains no `await`) — both succeed in either interleaving
order, and after both complete each session's `existing_clients`
snapshot (excluding itself) contains the other participant: lazy room
creation through the `defaultdict` loses no update. -/
theorem claim_C9 (reg : Registry) (roomId cidA cidB : String)
    (ca cb : Nat) (uA uB : Option String) (h : cidA ≠ cidB) :
    (cidB ∈ (snapshot (admitClient (admitClient reg roomId cidA ca uA) roomId cidB cb uB)
        roomId cidA).map Prod.fst ∧
     cidA ∈ (snapshot (admitClient (admitClient reg roomId cidA ca uA) roomId cidB cb uB)
        roomId cidB).map Prod.fst) ∧
    (cidB ∈ (snapshot (admitClient (admitClient reg roomId cidB cb uB) roomId cidA ca uA)
        roomId cidA).map Prod.fst ∧
     cidA ∈ (snapshot (admitClient (admitClient reg roomId cidB cb uB) roomId cidA ca uA)
        roomId cidB).map Prod.fst) := by
  have hBA : containsKey (ddGet (admitClient (admitClient reg roomId cidA ca uA) roomId
      cidB cb uB).rooms roomId) cidB = true := by
    rw [rooms_admitClient]
    simp [containsKey, dictGet_insert]
  have hAA : containsKey (ddGet (admitClient (admitClient reg roomId cidA ca uA) roomId
      cidB cb uB).rooms roomId) cidA = true := by
    rw [rooms_admitClient, rooms_admitClient]
    simp [containsKey, dictGet_insert, h]
  have hAB : containsKey (ddGet (admitClient (admitClient reg roomId cidB cb uB) roomId
      cidA ca uA).rooms roomId) cidA = true := by
    rw [rooms_admitClient]
    simp [containsKey, dictGet_insert]
  have hBB : containsKey (ddGet (admitClient (admitClient reg roomId cidB cb uB) roomId
      cidA ca uA).rooms roomId) cidB = true := by
    rw [rooms_admitClient, rooms_admitClient]
    simp only [containsKey, dictGet_insert]
    split
    · rfl
    · simp
  exact ⟨⟨mem_snapshot_of_containsKey _ _ _ _ hBA (fun he => h he.symm),
    mem_snapshot_of_containsKey _ _ _ _ hAA h⟩,
    ⟨mem_snapshot_of_containsKey _ _ _ _ hBB (fun he => h he.symm),
    mem_snapshot_of_containsKey _ _ _ _ hAB h⟩⟩

/-- C9 witness: two concurrent joiners of the fresh room "r" see each
other. -/
theorem claim_C9_witness :
    ("aaaa" : String) ≠ "bbbb" ∧
    "bbbb" ∈ (snapshot (admitClient (admitClient ⟨[], []⟩ "r" "aaaa" 0 none) "r"
        "bbbb" 1 none) "r" "aaaa").map Prod.fst :=
  ⟨by decide, (claim_C9 ⟨[], []⟩ "r" "aaaa" "bbbb" 0 1 none none
    (by decide)).1.1⟩

/-- C10: an inbound object whose "chat" value strips to the empty string
is silently dropped (lines 308-310): nothing is delivered, the registry
— and hence room membership — is exactly unchanged, and the receive
loop continues. -/
theorem claim_C10 (reg : Registry) (roomId sender : String)
    (fails : List String) (m : Dict JVal) (s : String)
    (hchat : dictGet m "chat" = some (JVal.str s))
    (hempty : pyStrip s = "") :
    sessionStep reg roomId sender (Inbound.val (JVal.obj m)) fails
      = .ok reg [] := by
  simp only [sessionStep, hchat]
  simp [chatStep, hempty]

theorem ddGet_ddTouch {V : Type} (dd : Dict (Dict V)) (k : String) :
    ddGet (ddTouch dd k) k = ddGet dd k := by
  simp [ddTouch, ddGet, dictGet_insert]

theorem filter_not_contains_nil {V : Type} (l : List (String × V)) :
    l.filter (fun p => !([] : List String).contains p.1) = l :=
  List.filter_eq_self.mpr (fun _ _ => rfl)

theorem chatStep_snd (reg : Registry) (roomId sender raw : String)
    (F : List String) (h : pyStrip raw ≠ "") :
    (chatStep reg roomId sender raw F).2
      = (((ddGet reg.rooms roomId).filter (fun p => p.1 ≠ sender)).filter
          (fun p => !F.contains p.1)).map
          (fun p => (p.1, [("from", JVal.str sender),
            ("from_username", JVal.str (userName reg roomId sender)),
            ("chat", JVal.str (pyStrip raw))])) := by
  simp only [chatStep]
  rw [if_neg h]

theorem signalStep_snd (reg : Registry) (roomId sender : String)
    (m : Dict JVal) (F : List String) :
    (signalStep reg roomId sender m F).2
      = (((ddGet reg.rooms roomId).filter
            (fun p => signalRecipient sender (dictGet m "to") p.1)).filter
          (fun p => !F.contains p.1)).map
          (fun p => (p.1, envelope sender (userName reg roomId sender) m)) := by
  simp only [signalStep]

theorem chatStep_fst_rooms (reg : Registry) (roomId sender raw : String)
    (F : List String) (h : pyStrip raw ≠ "") :
    ddGet (chatStep reg roomId sender raw F).1.rooms roomId
      = ((((ddGet reg.rooms roomId).filter (fun p => p.1 ≠ sender)).filter
          (fun p => F.contains p.1)).map Prod.fst).foldl
          (fun mm c => dictErase mm c) (ddGet reg.rooms roomId) := by
  simp only [chatStep]
  rw [if_neg h]
  rw [rooms_foldl_pruneOne]
  simp [ddGet_ddTouch]

theorem chatStep_fst_roomUsers (reg : Registry) (roomId sender raw : String)
    (F : List String) (h : pyStrip raw ≠ "") :
    ddGet (chatStep reg roomId sender raw F).1.roomUsers roomId
      = ((((ddGet reg.rooms roomId).filter (fun p => p.1 ≠ sender)).filter
          (fun p => F.contains p.1)).map Prod.fst).foldl
          (fun mm c => dictErase mm c) (ddGet reg.roomUsers roomId) := by
  simp only [chatStep]
  rw [if_neg h]
  rw [roomUsers_foldl_pruneOne]
  simp [ddGet_ddTouch]

theorem signalStep_fst_rooms (reg : Registry) (roomId sender : String)
    (m : Dict JVal) (F : List String) :
    ddGet (signalStep reg roomId sender m F).1.rooms roomId
      = ((((ddGet reg.rooms roomId).filter
            (fun p => signalRecipient sender (dictGet m "to") p.1)).filter
          (fun p => F.contains p.1)).map Prod.fst).foldl
          (fun mm c => dictErase mm c) (ddGet reg.rooms roomId) := by
  simp only [signalStep]
  rw [rooms_foldl_pruneOne]
  simp [ddGet_ddTouch]

theorem signalStep_fst_roomUsers (reg : Registry) (roomId sender : String)
    (m : Dict JVal) (F : List String) :
    ddGet (signalStep reg roomId sender m F).1.roomUsers roomId
      = ((((ddGet reg.rooms roomId).filter
            (fun p => signalRecipient sender (dictGet m "to") p.1)).filter
          (fun p => F.contains p.1)).map Prod.fst).foldl
          (fun mm c => dictErase mm c) (ddGet reg.roomUsers roomId) := by
  simp only [signalStep]
  rw [roomUsers_foldl_pruneOne]
  simp [ddGet_ddTouch]

/-- C5: a non-empty chat from a member A of a room with N members is
delivered (absent transport failure, `fails = []`) to exactly the N−1
members other than A — never to A — and every delivered message is
`{"from": A, "from_username": A's display name, "chat": text}`. -/
theorem claim_C5 (reg : Registry) (roomId sender raw : String)
    (hstrip : pyStrip raw ≠ "")
    (hmem : containsKey (ddGet reg.rooms roomId) sender = true)
    (hnd : ((ddGet reg.rooms roomId).map Prod.fst).Nodup) :
    ((chatStep reg roomId sender raw []).2).length + 1
        = (ddGet reg.rooms roomId).length ∧
    (∀ d ∈ (chatStep reg roomId sender raw []).2,
      d.1 ≠ sender ∧ containsKey (ddGet reg.rooms roomId) d.1 = true) ∧
    (∀ p ∈ ddGet reg.rooms roomId, p.1 ≠ sender →
      p.1 ∈ ((chatStep reg roomId sender raw []).2).map Prod.fst) ∧
    (∀ d ∈ (chatStep reg roomId sender raw []).2,
      d.2 = [("from", JVal.str sender),
        ("from_username", JVal.str (userName reg roomId sender)),
        ("chat", JVal.str (pyStrip raw))]) := by
  have hds := chatStep_snd reg roomId sender raw [] hstrip
  rw [filter_not_contains_nil] at hds
  refine ⟨?_, ?_, ?_, ?_⟩
  · rw [hds, List.length_map]
    exact length_dictErase_of_containsKey _ _ hnd hmem
  · intro d hd
    rw [hds] at hd
    rcases List.mem_map.mp hd with ⟨p, hp, he⟩
    rcases List.mem_filter.mp hp with ⟨hpm, hps⟩
    have hps2 : p.1 ≠ sender := by simpa using hps
    refine ⟨he ▸ hps2, ?_⟩
    rw [containsKey_eq_true_iff]
    exact ⟨p, hpm, he ▸ rfl⟩
  · intro p hp hps
    rw [hds, List.map_map]
    refine List.mem_map.mpr ⟨p, List.mem_filter.mpr ⟨hp, by simpa⟩, rfl⟩
  · intro d hd
    rw [hds] at hd
    rcases List.mem_map.mp hd with ⟨p, _, he⟩
    exact he ▸ rfl

/-- C5 witness: in a three-member room, sender aaaa's chat "hi" reaches
exactly two recipients. -/
theorem claim_C5_witness :
    pyStrip "hi" ≠ "" ∧
    containsKey (ddGet (⟨[("r", [("aaaa", 0), ("bbbb", 1), ("cccc", 2)])],
        [("r", [("aaaa", "Alice")])]⟩ : Registry).rooms "r") "aaaa" = true ∧
    ((ddGet (⟨[("r", [("aaaa", 0), ("bbbb", 1), ("cccc", 2)])],
        [("r", [("aaaa", "Alice")])]⟩ : Registry).rooms "r").map
        Prod.fst).Nodup ∧
    ((chatStep ⟨[("r", [("aaaa", 0), ("bbbb", 1), ("cccc", 2)])],
        [("r", [("aaaa", "Alice")])]⟩ "r" "aaaa" "hi" []).2).length + 1
      = (ddGet (⟨[("r", [("aaaa", 0), ("bbbb", 1), ("cccc", 2)])],
        [("r", [("aaaa", "Alice")])]⟩ : Registry).rooms "r").length :=
  ⟨by decide, rfl, by decide,
    (claim_C5 ⟨[("r", [("aaaa", 0), ("bbbb", 1), ("cccc", 2)])],
      [("r", [("aaaa", "Alice")])]⟩ "r" "aaaa" "hi" (by decide) rfl
      (by decide)).1⟩

theorem filter_and_key_eq {V : Type} (d : Dict V) (X sender : String)
    (v : V) (hnd : (d.map Prod.fst).Nodup) (h : dictGet d X = some v)
    (hXs : X ≠ sender) :
    d.filter (fun p => decide (p.1 ≠ sender) && decide (p.1 = X))
      = [(X, v)] := by
  induction d with
  | nil => simp [dictGet] at h
  | cons p t ih =>
    simp only [List.map_cons, List.nodup_cons] at hnd
    rw [dictGet_cons] at h
    by_cases hp : p.1 = X
    · simp [hp] at h
      have hpv : p = (X, v) := by
        cases p
        simp_all
      rw [List.filter_cons, if_pos (by simp [hp, hXs])]
      have ht : t.filter
          (fun q => decide (q.1 ≠ sender) && decide (q.1 = X)) = [] := by
        rw [List.filter_eq_nil_iff]
        intro q hq
        have hqX : q.1 ≠ X := by
          intro he
          apply hnd.1
          have hm := List.mem_map_of_mem Prod.fst hq
          rwa [he, ← hp] at hm
        simp [hqX]
      rw [ht, hpv]
    · simp [hp] at h
      rw [List.filter_cons, if_neg (by simp [hp])]
      exact ih hnd.2 h

theorem filter_and_key_eq_nil {V : Type} (d : Dict V) (X sender : String)
    (h : dictGet d X = none) :
    d.filter (fun p => decide (p.1 ≠ sender) && decide (p.1 = X)) = [] := by
  rw [List.filter_eq_nil_iff]
  intro p hp
  have hpX : p.1 ≠ X := by
    intro he
    rw [dictGet_eq_none_iff] at h
    exact h (he ▸ List.mem_map_of_mem Prod.fst hp)
  simp [hpX]

theorem filter_self_target_nil {V : Type} (d : Dict V) (X : String) :
    d.filter (fun p => decide (p.1 ≠ X) && decide (p.1 = X)) = [] := by
  rw [List.filter_eq_nil_iff]
  intro p _
  by_cases hpX : p.1 = X <;> simp [hpX]

/-- C6 (counterexample): the target check is `not target_client or
cid == target_client` (line 350), and the empty string is *falsy* in
Python, so `{"to": ""}` — whose target "" is not a member of the room —
is broadcast to all other members rather than delivered to zero
recipients.  In a room {aaaa, bbbb, cccc}, sender aaaa's signal with
`"to": ""` reaches bbbb and cccc. -/
theorem claim_C6_counterexample :
    containsKey (ddGet (⟨[("r", [("aaaa", 0), ("bbbb", 1), ("cccc", 2)])],
        []⟩ : Registry).rooms "r") "" = false ∧
    (deliveries (sessionStep ⟨[("r", [("aaaa", 0), ("bbbb", 1),
        ("cccc", 2)])], []⟩ "r" "aaaa"
      (Inbound.val (JVal.obj [("type", JVal.str "offer"),
        ("to", JVal.str "")])) [])).map Prod.fst = ["bbbb", "cccc"] :=
  ⟨rfl, rfl⟩

/-- C6 (amended): for a signal whose "to" value is a *non-empty* string
X, delivery is as claimed: exactly one recipient (X) when X is a
current member other than the sender, and zero recipients, with no
error, when X is not a member or X is the sender itself.  (A falsy
target value — the empty string, null, 0, false, or an empty
array/object — is instead treated as "no target" and broadcast to all
other members.) -/
theorem claim_C6 (reg : Registry) (roomId sender X : String)
    (m : Dict JVal) (hto : dictGet m "to" = some (JVal.str X))
    (hX : X ≠ "")
    (hnd : ((ddGet reg.rooms roomId).map Prod.fst).Nodup) :
    (containsKey (ddGet reg.rooms roomId) X = true → X ≠ sender →
      ((signalStep reg roomId sender m []).2).map Prod.fst = [X]) ∧
    (containsKey (ddGet reg.rooms roomId) X = false ∨ X = sender →
      (signalStep reg roomId sender m []).2 = []) := by
  have hds := signalStep_snd reg roomId sender m []
  rw [filter_not_contains_nil] at hds
  have hsr : (fun p : String × Nat =>
        signalRecipient sender (dictGet m "to") p.1)
      = (fun p : String × Nat =>
        decide (p.1 ≠ sender) && decide (p.1 = X)) := by
    funext p
    rw [hto]
    simp [signalRecipient, eqTarget, JVal.truthy, hX]
  rw [hsr] at hds
  constructor
  · intro hmem hXs
    rcases Option.isSome_iff_exists.mp hmem with ⟨v, hv⟩
    rw [hds, filter_and_key_eq _ _ _ _ hnd hv hXs]
    rfl
  · rintro (hmem | hself)
    · rw [hds, filter_and_key_eq_nil _ _ _
        (dictGet_eq_none_of_not_containsKey _ _ hmem)]
      rfl
    · subst hself
      rw [hds, filter_self_target_nil]
      rfl

/-- C6 witness: a signal targeted at the member bbbb is delivered to
exactly bbbb. -/
theorem claim_C6_witness :
    dictGet [("type", JVal.str "offer"), ("to", JVal.str "bbbb")] "to"
      = some (JVal.str "bbbb") ∧
    ("bbbb" : String) ≠ "" ∧
    ((ddGet (⟨[("r", [("aaaa", 0), ("bbbb", 1), ("cccc", 2)])], []⟩ :
        Registry).rooms "r").map Prod.fst).Nodup ∧
    containsKey (ddGet (⟨[("r", [("aaaa", 0), ("bbbb", 1), ("cccc", 2)])],
        []⟩ : Registry).rooms "r") "bbbb" = true ∧
    ((signalStep ⟨[("r", [("aaaa", 0), ("bbbb", 1), ("cccc", 2)])], []⟩
        "r" "aaaa" [("type", JVal.str "offer"), ("to", JVal.str "bbbb")]
        []).2).map Prod.fst = ["bbbb"] :=
  ⟨rfl, by decide, by decide, rfl,
    (claim_C6 ⟨[("r", [("aaaa", 0), ("bbbb", 1), ("cccc", 2)])], []⟩ "r"
      "aaaa" "bbbb" [("type", JVal.str "offer"), ("to", JVal.str "bbbb")]
      rfl (by decide) (by decide)).1 rfl (by decide)⟩

theorem contains_prune_list {V : Type} (members : List (String × V))
    (qb : String → Bool) (F : List String) (c : String) :
    ((((members.filter (fun p => qb p.1)).filter
        (fun p => F.contains p.1)).map Prod.fst).contains c)
      = (containsKey members c && qb c && F.contains c) := by
  cases hk : containsKey members c with
  | false =>
    simp only [Bool.false_and]
    rw [Bool.eq_false_iff]
    intro hcon
    rcases List.mem_map.mp (List.elem_iff.mp hcon) with ⟨p, hp, hpc⟩
    rcases List.mem_filter.mp hp with ⟨hp1, _⟩
    rcases List.mem_filter.mp hp1 with ⟨hpm, _⟩
    have hc2 : containsKey members c = true :=
      (containsKey_eq_true_iff _ _).mpr ⟨p, hpm, hpc⟩
    rw [hk] at hc2
    exact Bool.false_ne_true hc2
  | true =>
    simp only [Bool.true_and]
    cases hq : qb c with
    | false =>
      simp only [Bool.false_and]
      rw [Bool.eq_false_iff]
      intro hcon
      rcases List.mem_map.mp (List.elem_iff.mp hcon) with ⟨p, hp, hpc⟩
      rcases List.mem_filter.mp hp with ⟨hp1, _⟩
      rcases List.mem_filter.mp hp1 with ⟨_, hpq⟩
      rw [hpc, hq] at hpq
      exact Bool.false_ne_true hpq
    | true =>
      cases hF : F.contains c with
      | false =>
        simp only [Bool.and_false]
        rw [Bool.eq_false_iff]
        intro hcon
        rcases List.mem_map.mp (List.elem_iff.mp hcon) with ⟨p, hp, hpc⟩
        rcases List.mem_filter.mp hp with ⟨_, hpF⟩
        rw [hpc, hF] at hpF
        exact Bool.false_ne_true hpF
      | true =>
        simp only [Bool.and_true]
        rcases (containsKey_eq_true_iff _ _).mp hk with ⟨p, hpm, hpc⟩
        apply List.elem_eq_true_of_mem
        refine List.mem_map.mpr ⟨p, ?_, hpc⟩
        refine List.mem_filter.mpr ⟨List.mem_filter.mpr ⟨hpm, ?_⟩, ?_⟩
        · rw [hpc]
          exact hq
        · rw [hpc]
          exact hF

/-- C8: after either broadcast (chat with a non-blank message, or
signal), every *recipient* whose send failed is removed from both the
connection map and the display-name map within the same loop iteration
— i.e. before the next inbound message is received — while the sender
and every participant whose send did not fail keep exactly their prior
membership in both maps. -/
theorem claim_C8 (reg : Registry) (roomId sender raw : String)
    (m : Dict JVal) (F : List String) (c : String) :
    (pyStrip raw ≠ "" →
      ((c ≠ sender ∧ containsKey (ddGet reg.rooms roomId) c = true ∧
          F.contains c = true →
        containsKey (ddGet (chatStep reg roomId sender raw F).1.rooms
          roomId) c = false ∧
        containsKey (ddGet (chatStep reg roomId sender raw F).1.roomUsers
          roomId) c = false) ∧
       (c = sender ∨ F.contains c = false →
        containsKey (ddGet (chatStep reg roomId sender raw F).1.rooms
          roomId) c = containsKey (ddGet reg.rooms roomId) c ∧
        containsKey (ddGet (chatStep reg roomId sender raw F).1.roomUsers
          roomId) c = containsKey (ddGet reg.roomUsers roomId) c))) ∧
    ((signalRecipient sender (dictGet m "to") c = true ∧
        containsKey (ddGet reg.rooms roomId) c = true ∧
        F.contains c = true →
      containsKey (ddGet (signalStep reg roomId sender m F).1.rooms
        roomId) c = false ∧
      containsKey (ddGet (signalStep reg roomId sender m F).1.roomUsers
        roomId) c = false) ∧
     (signalRecipient sender (dictGet m "to") c = false ∨
        F.contains c = false →
      containsKey (ddGet (signalStep reg roomId sender m F).1.rooms
        roomId) c = containsKey (ddGet reg.rooms roomId) c ∧
      containsKey (ddGet (signalStep reg roomId sender m F).1.roomUsers
        roomId) c = containsKey (ddGet reg.roomUsers roomId) c)) := by
  constructor
  · intro hstrip
    have hR := chatStep_fst_rooms reg roomId sender raw F hstrip
    have hU := chatStep_fst_roomUsers reg roomId sender raw F hstrip
    constructor
    · rintro ⟨hcs, hmemc, hF⟩
      have hFm : c ∈ F := List.elem_iff.mp hF
      constructor
      · rw [hR, containsKey_foldl_erase,
          contains_prune_list (ddGet reg.rooms roomId)
            (fun x => decide (x ≠ sender)) F c]
        simp [hmemc, hFm, hcs]
      · rw [hU, containsKey_foldl_erase,
          contains_prune_list (ddGet reg.rooms roomId)
            (fun x => decide (x ≠ sender)) F c]
        simp [hmemc, hFm, hcs]
    · rintro (hself | hF)
      · constructor
        · rw [hR, containsKey_foldl_erase,
            contains_prune_list (ddGet reg.rooms roomId)
              (fun x => decide (x ≠ sender)) F c]
          simp [hself]
        · rw [hU, containsKey_foldl_erase,
            contains_prune_list (ddGet reg.rooms roomId)
              (fun x => decide (x ≠ sender)) F c]
          simp [hself]
      · have hFm : c ∉ F := by simpa using hF
        constructor
        · rw [hR, containsKey_foldl_erase,
            contains_prune_list (ddGet reg.rooms roomId)
              (fun x => decide (x ≠ sender)) F c]
          simp [hFm]
        · rw [hU, containsKey_foldl_erase,
            contains_prune_list (ddGet reg.rooms roomId)
              (fun x => decide (x ≠ sender)) F c]
          simp [hFm]
  · have hR := signalStep_fst_rooms reg roomId sender m F
    have hU := signalStep_fst_roomUsers reg roomId sender m F
    constructor
    · rintro ⟨hsr, hmemc, hF⟩
      have hFm : c ∈ F := List.elem_iff.mp hF
      constructor
      · rw [hR, containsKey_foldl_erase,
          contains_prune_list (ddGet reg.rooms roomId)
            (signalRecipient sender (dictGet m "to")) F c]
        simp [hmemc, hFm, hsr]
      · rw [hU, containsKey_foldl_erase,
          contains_prune_list (ddGet reg.rooms roomId)
            (signalRecipient sender (dictGet m "to")) F c]
        simp [hmemc, hFm, hsr]
    · rintro (hsr | hF)
      · constructor
        · rw [hR, containsKey_foldl_erase,
            contains_prune_list (ddGet reg.rooms roomId)
              (signalRecipient sender (dictGet m "to")) F c]
          simp [hsr]
        · rw [hU, containsKey_foldl_erase,
            contains_prune_list (ddGet reg.rooms roomId)
              (signalRecipient sender (dictGet m "to")) F c]
          simp [hsr]
      · have hFm : c ∉ F := by simpa using hF
        constructor
        · rw [hR, containsKey_foldl_erase,
            contains_prune_list (ddGet reg.rooms roomId)
              (signalRecipient sender (dictGet m "to")) F c]
          simp [hFm]
        · rw [hU, containsKey_foldl_erase,
            contains_prune_list (ddGet reg.rooms roomId)
              (signalRecipient sender (dictGet m "to")) F c]
          simp [hFm]

/-- C8 witness: in room {aaaa, bbbb, cccc}, when sender aaaa's chat
fails to reach bbbb, bbbb is removed from both maps before the next
message. -/
theorem claim_C8_witness :
    pyStrip "hi" ≠ "" ∧
    (("bbbb" : String) ≠ "aaaa" ∧
      containsKey (ddGet (⟨[("r", [("aaaa", 0), ("bbbb", 1),
        ("cccc", 2)])], [("r", [("bbbb", "Bob")])]⟩ : Registry).rooms "r")
        "bbbb" = true ∧
      (["bbbb"] : List String).contains "bbbb" = true) ∧
    containsKey (ddGet (chatStep ⟨[("r", [("aaaa", 0), ("bbbb", 1),
        ("cccc", 2)])], [("r", [("bbbb", "Bob")])]⟩ "r" "aaaa" "hi"
        ["bbbb"]).1.rooms "r") "bbbb" = false ∧
    containsKey (ddGet (chatStep ⟨[("r", [("aaaa", 0), ("bbbb", 1),
        ("cccc", 2)])], [("r", [("bbbb", "Bob")])]⟩ "r" "aaaa" "hi"
        ["bbbb"]).1.roomUsers "r") "bbbb" = false :=
  ⟨by decide, ⟨by decide, rfl, by decide⟩,
    ((claim_C8 ⟨[("r", [("aaaa", 0), ("bbbb", 1), ("cccc", 2)])],
        [("r", [("bbbb", "Bob")])]⟩ "r" "aaaa" "hi"
        [("type", JVal.str "offer")] ["bbbb"] "bbbb").1 (by decide)).1
      ⟨by decide, rfl, by decide⟩⟩

/-- C10 witness: a whitespace-only chat is dropped with no deliveries
and no state change. -/
theorem claim_C10_witness :
    dictGet [("chat", JVal.str "  ")] "chat" = some (JVal.str "  ") ∧
    pyStrip "  " = "" ∧
    sessionStep ⟨[("r", [("aaaa", 0), ("bbbb", 1)])], []⟩ "r" "aaaa"
        (Inbound.val (JVal.obj [("chat", JVal.str "  ")])) []
      = .ok ⟨[("r", [("aaaa", 0), ("bbbb", 1)])], []⟩ [] :=
  ⟨rfl, rfl, claim_C10 _ "r" "aaaa" [] _ "  " rfl rfl⟩

end VideoChat
